import Mathlib

/-!
Verification of the libear interception shim (scan-build).

This file gives a shallow embedding of the C sources under src/libear
(ear.c, protocol.c, stringarray.c, environ.c) and proves or refutes the
frozen claims about them.  C strings are modelled as `List Char` (byte
strings on the wire as `List Nat`), NULL-able pointers as `Option`,
process-fatal `perror`+`exit` paths as an explicit `Fatal` outcome, and
the allocation and write(2) system-call outcomes as explicit oracles
threaded through the definitions.
-/

/-- Environment entries and environment-variable names (C strings). -/
abbrev EnvStr := List Char

/-- Transcribes the key-match test of `bear_update_environ` (ear.c:565-568):
`0 == strncmp(*it, key, key_length) && strlen(*it) > key_length &&
'=' == (*it)[key_length]`.  `strncmp` agreeing on the first `key_length`
bytes of two NUL-terminated strings is exactly `key.isPrefixOf entry`. -/
def envKeyMatches (key entry : EnvStr) : Bool :=
  key.isPrefixOf entry && decide (key.length < entry.length)
    && (entry[key.length]? == some '=')

/-- Transcribes `asprintf(&env, "%s=%s", key, value)` (ear.c:574). -/
def mkEnvEntry (key value : EnvStr) : EnvStr := key ++ '=' :: value

/-- Transcribes `bear_update_environ` (ear.c:561-585): scan for the first
entry whose key matches; if the scan reaches the sentinel, append
`key=value`; if a matching entry is found whose value part
(`*it + key_length + 1`) differs from `value` (`strcmp` non-zero),
overwrite that entry in place; otherwise leave the vector unchanged.
The C find-then-branch loop is rendered as structural recursion.
(The `envs == NULL` case never arises from its caller, which always
passes a freshly copied, sentinel-terminated vector.) -/
def bear_update_environ (envs : List EnvStr) (key value : EnvStr) : List EnvStr :=
  match envs with
  | [] => [mkEnvEntry key value]
  | e :: rest =>
    if envKeyMatches key e then
      if e.drop (key.length + 1) == value then e :: rest
      else mkEnvEntry key value :: rest
    else e :: bear_update_environ rest key value

/-- Transcribes `bear_strings_copy` (ear.c:616-636) at the value level:
a deep copy of every element (allocation behaviour is modelled
separately by `stringsCopyAlloc`-style definitions below). -/
def bear_strings_copy (xs : List EnvStr) : List EnvStr := xs.map id

/-- The process-wide captured environment state (ear.c:48-54), in the
build configuration without ENV_FLAT.  A field is `none` when the
corresponding environment variable was absent (or its `strdup` failed)
at capture time. -/
structure bear_env_t where
  output : Option EnvStr
  preload : Option EnvStr
deriving DecidableEq, Repr

/-- Transcribes `bear_is_valid_env_t` (ear.c:504-512): returns -1 (true)
iff both required fields are non-null, else 0. -/
def bear_is_valid_env_t (env : bear_env_t) : Int :=
  if env.preload.isSome && env.output.isSome then -1 else 0

/-- Transcribes `bear_update_environment` (ear.c:548-559) without
ENV_FLAT: copy the vector; if the state is null return the copy;
otherwise update ENV_PRELOAD then ENV_OUTPUT.  The recognized key names
come from config.h and are passed as the parameters `kOut` and `kPre`.
A state reaching this point with interception active has passed
`bear_is_valid_env_t`, so both fields are non-null; the dereference of
the field pointer is modelled by `Option.getD`. -/
def bear_update_environment (kOut kPre : EnvStr) (envp : List EnvStr)
    (state : Option bear_env_t) : List EnvStr :=
  match state with
  | none => bear_strings_copy envp
  | some env =>
      bear_update_environ
        (bear_update_environ (bear_strings_copy envp) kPre (env.preload.getD []))
        kOut (env.output.getD [])

/-! ### Re-entrancy guard (ear.c:90-106, EXEC_LOOP_ON_EXECVE configuration) -/

/-- A host-level invocation of an interception hook on a platform with
EXEC_LOOP_ON_EXECVE defined: the label identifies the call, the children
are the hooked calls that the forwarded real call re-enters before it
completes (returns failure). -/
inductive CallTree : Type where
  | node : Nat → List CallTree → CallTree

mutual
/-- Transcribes one hook body under REPORT_CALL / REPORT_FAILED_CALL
(ear.c:92-101): save the process-wide flag into `report_state`; if the
flag was clear, report this call and set the flag; run the forwarded
real call (which re-enters the nested hooked calls); when it returns
(failure), clear the flag only if this invocation was the one that set
it.  Returns the final flag and the labels reported, in order. -/
def runCall (flag : Bool) : CallTree → Bool × List Nat
  | CallTree.node l ts =>
    let report_state := flag
    let rep : List Nat := if flag then [] else [l]
    let p := runList true ts
    (if report_state then p.1 else false, rep ++ p.2)

/-- Runs a sequence of hook invocations in one process, threading the
process-wide `already_reported` flag. -/
def runList (flag : Bool) : List CallTree → Bool × List Nat
  | [] => (flag, [])
  | t :: ts =>
    let p1 := runCall flag t
    let p2 := runList p1.1 ts
    (p2.1, p1.2 ++ p2.2)
end

/-! ### State capture, validation, restore and the hook paths
(ear.c:155-181, 364-379, 443-458, 493-535) -/

/-- An abnormal end of the host process as modelled here: `fatal` is the
`perror` + `exit(EXIT_FAILURE)` convention used on unrecoverable errors,
`nullDeref` is the undefined behaviour of dereferencing a null pointer. -/
inductive Abort : Type where
  | fatal
  | nullDeref
deriving DecidableEq, Repr

/-- `strdup` as used by `bear_capture_env_t`: the copy, or NULL when the
allocation fails (`ok` is the allocation outcome). -/
def strdupOpt (ok : Bool) (s : EnvStr) : Option EnvStr :=
  if ok then some s else none

/-- Transcribes `bear_capture_env_t` (ear.c:493-502) without ENV_FLAT:
`getenv` each recognized variable from the ambient environment `getv`
and `strdup` it when present; a missing variable or a failed `strdup`
leaves the field null.  `okOut` and `okPre` are the outcomes of the two
`strdup` allocations.  The `Except Abort` result type records that no
path of this function prints a diagnostic or terminates the process. -/
def bear_capture_env_t (getv : EnvStr → Option EnvStr) (kOut kPre : EnvStr)
    (okOut okPre : Bool) : Except Abort bear_env_t :=
  Except.ok
    { output := (getv kOut).bind (strdupOpt okOut)
      preload := (getv kPre).bind (strdupOpt okPre) }

/-- Transcribes `on_load` (ear.c:155-173): capture the ambient
environment; if validation fails, release the local capture (a heap
effect, modelled in the heap section below) and leave the process-wide
state null; otherwise allocate the state (`mallocOk` is that `malloc`'s
outcome) and copy the capture into it — when the `malloc` fails, print
a diagnostic (`perror`) and leave the state null *without* terminating.
Returns the resulting process-wide state. -/
def on_load (getv : EnvStr → Option EnvStr) (kOut kPre : EnvStr)
    (okOut okPre mallocOk : Bool) : Except Abort (Option bear_env_t) :=
  (bear_capture_env_t getv kOut kPre okOut okPre).map (fun current =>
    if bear_is_valid_env_t current ≠ 0 then
      if mallocOk then some current else none
    else none)

/-- Transcribes `on_unload` (ear.c:175-181): release and free the state
if present (heap effects modelled below); the state is null afterwards. -/
def on_unload (state : Option bear_env_t) : Option bear_env_t := none

/-- Transcribes `bear_restore_env_t` (ear.c:514-535) as invoked through a
possibly-null state pointer, exactly as `call_execvp` (ear.c:372) does:
the field access `env->output` dereferences the pointer unconditionally,
so a null state is a crash (undefined behaviour); a non-null state
writes both recognized variables back into the ambient environment
(`setenv` when the field is non-null, `unsetenv` otherwise — the
`setenv`-failure exit path is not exercised here).  Returns the ambient
writes performed, in order. -/
def bear_restore_env_t (kOut kPre : EnvStr) (state : Option bear_env_t) :
    Except Abort (List (EnvStr × Option EnvStr)) :=
  match state with
  | none => Except.error Abort.nullDeref
  | some env => Except.ok [(kOut, env.output), (kPre, env.preload)]

/-- Transcribes `call_execvp` (ear.c:364-379): capture the current
ambient environment, force-restore the process-wide state (passing the
state pointer to `bear_restore_env_t` even when it is null), invoke the
real `execvp` (its return value is the parameter `realResult`; it
returns only on failure), then restore and release the captured ambient
environment.  Returns the real result and the ambient writes made. -/
def call_execvp (kOut kPre : EnvStr) (state : Option bear_env_t)
    (getv : EnvStr → Option EnvStr) (realResult : Int) :
    Except Abort (Int × List (EnvStr × Option EnvStr)) := do
  let current ← bear_capture_env_t getv kOut kPre true true
  let ops1 ← bear_restore_env_t kOut kPre state
  let ops2 ← bear_restore_env_t kOut kPre (some current)
  pure (realResult, ops1 ++ ops2)

/-- Transcribes `bear_report_call` (ear.c:443-458): with a null state the
function returns immediately and nothing is reported; otherwise exactly
one record naming the hooked function and the given argument vector is
sent.  Returns the list of reports produced. -/
def bear_report_call (state : Option bear_env_t) (fn : EnvStr)
    (argv : List EnvStr) : List (EnvStr × List EnvStr) :=
  match state with
  | none => []
  | some _ => [(fn, argv)]

/-- Transcribes the `execvp` hook (ear.c:225-232): REPORT_CALL, forward
to `call_execvp`, REPORT_FAILED_CALL (a no-op off Apple), return the
real result.  Yields the reports produced, the real result and the
ambient writes. -/
def execvp_hook (kOut kPre : EnvStr) (state : Option bear_env_t)
    (getv : EnvStr → Option EnvStr) (file : EnvStr) (argv : List EnvStr)
    (realResult : Int) :
    Except Abort (List (EnvStr × List EnvStr) × Int × List (EnvStr × Option EnvStr)) := do
  let reports := bear_report_call state ['e','x','e','c','v','p'] argv
  let r ← call_execvp kOut kPre state getv realResult
  pure (reports, r.1, r.2)

/-- Transcribes `call_execve` (ear.c:336-348): compute the updated
environment from the state, call the real `execve` with it (its return
value is `realResult`), release the vector.  Returns the real result and
the environment vector actually passed to the real function. -/
def call_execve (kOut kPre : EnvStr) (state : Option bear_env_t)
    (envp : List EnvStr) (realResult : Int) : Int × List EnvStr :=
  (realResult, bear_update_environment kOut kPre envp state)

/-- Transcribes the `execve` hook (ear.c:192-199). -/
def execve_hook (kOut kPre : EnvStr) (state : Option bear_env_t)
    (path : EnvStr) (argv : List EnvStr) (envp : List EnvStr)
    (realResult : Int) :
    List (EnvStr × List EnvStr) × Int × List EnvStr :=
  let reports := bear_report_call state ['e','x','e','c','v','e'] argv
  let r := call_execve kOut kPre state envp realResult
  (reports, r.1, r.2)

/-- Allocation-level transcription of `bear_strings_build`
(stringarray.c:15-44): the variadic arguments are already materialized
in `args`; `σ k` is the outcome of the k-th allocation call (the
`realloc`/`strdup` pairs, then the final `realloc` for the sentinel);
any failed allocation prints a diagnostic and terminates (`fatal`). -/
def bear_strings_build (σ : Nat → Bool) : List EnvStr → Nat → Except Abort (List EnvStr)
  | [], k => if σ k then Except.ok [] else Except.error Abort.fatal
  | s :: rest, k =>
    if σ k then
      if σ (k + 1) then
        (bear_strings_build σ rest (k + 2)).map (fun tail => s :: tail)
      else Except.error Abort.fatal
    else Except.error Abort.fatal

/-! ### Socket wire format (protocol.c) -/

/-- Little-endian byte dump of an integer field of the given byte
width, as produced by writing the raw in-memory bytes of `pid_t`
(width 4) and `size_t` (width 8).  The byte order of the native
in-memory dump is fixed as little-endian in this model. -/
def natLE : Nat → Nat → List Nat
  | 0, _ => []
  | w + 1, n => n % 256 :: natLE w (n / 256)

/-- Transcribes `write_pid` (protocol.c:50-53): the `sizeof(pid_t)` = 4
raw bytes of the pid. -/
def write_pid (pid : Nat) : List Nat := natLE 4 pid

/-- Transcribes `write_string` (protocol.c:55-63) as the bytes put on
the wire: a `sizeof(size_t)` = 8 byte length field followed by the raw
bytes, written only when the length is positive; no terminator. -/
def write_string (msg : List Nat) : List Nat :=
  natLE 8 msg.length ++ (if msg.length > 0 then msg else [])

/-- Transcribes `write_string_array` (protocol.c:65-73): a
length-prefixed element count, then each element as a length-prefixed
string. -/
def write_string_array (msgs : List (List Nat)) : List Nat :=
  natLE 8 msgs.length ++ (msgs.map write_string).flatten

/-- The call record of the socket transport (protocol.h): process ids
and byte strings for the hooked function's name, the working directory
and the argument vector.  (`fun` is a reserved word, hence `fn`.) -/
structure bear_message_t where
  pid : Nat
  ppid : Nat
  fn : List Nat
  cwd : List Nat
  cmd : List (List Nat)
deriving DecidableEq, Repr

/-- Transcribes `bear_write_message` (protocol.c:75-82): pid, ppid,
function name, working directory, then the argument vector. -/
def bear_write_message (e : bear_message_t) : List Nat :=
  write_pid e.pid ++ write_pid e.ppid ++ write_string e.fn
    ++ write_string e.cwd ++ write_string_array e.cmd

/-- Modelled from the spec: the little-endian value of a fixed-width
field read back from the wire (the collector-side decoder is not part
of src/, only the writer is; spec section 4.5 fixes the format). -/
def fromLE : List Nat → Nat
  | [] => 0
  | b :: rest => b + 256 * fromLE rest

/-- Modelled from the spec: read a fixed-width integer field of `w` raw
bytes from the stream. -/
def readNatLE (w : Nat) (bs : List Nat) : Option (Nat × List Nat) :=
  if w ≤ bs.length then some (fromLE (bs.take w), bs.drop w) else none

/-- Modelled from the spec: read one length-prefixed byte string (a
native-width length field followed by that many raw bytes). -/
def readString (bs : List Nat) : Option (List Nat × List Nat) :=
  match readNatLE 8 bs with
  | none => none
  | some (len, bs1) =>
    if len ≤ bs1.length then some (bs1.take len, bs1.drop len) else none

/-- Modelled from the spec: read `n` length-prefixed byte strings. -/
def readStrings : Nat → List Nat → Option (List (List Nat) × List Nat)
  | 0, bs => some ([], bs)
  | n + 1, bs =>
    match readString bs with
    | none => none
    | some (s, bs1) =>
      match readStrings n bs1 with
      | none => none
      | some (ss, bs2) => some (s :: ss, bs2)

/-- Modelled from the spec: decode one call record — fixed-width pid and
ppid, length-prefixed function name and working directory, then a
length-prefixed element count followed by that many length-prefixed
argument strings. -/
def readMessage (bs : List Nat) : Option (bear_message_t × List Nat) :=
  match readNatLE 4 bs with
  | none => none
  | some (pid, bs1) =>
    match readNatLE 4 bs1 with
    | none => none
    | some (ppid, bs2) =>
      match readString bs2 with
      | none => none
      | some (fn, bs3) =>
        match readString bs3 with
        | none => none
        | some (cwd, bs4) =>
          match readNatLE 8 bs4 with
          | none => none
          | some (count, bs5) =>
            match readStrings count bs5 with
            | none => none
            | some (cmd, bs6) => some (⟨pid, ppid, fn, cwd, cmd⟩, bs6)

/-! ### Socket transport with explicit write(2) outcomes (protocol.c:35-73) -/

/-- The end of a transport operation: `ok` with a value, the
process-fatal diagnostic path (`perror` + `exit`, never taken by the
write helpers), or `stuck` when the modelled sequence of write(2)
outcomes runs out before the loop finishes. -/
inductive Outcome (α : Type) : Type where
  | ok : α → Outcome α
  | fatal : Outcome α
  | stuck : Outcome α
deriving DecidableEq, Repr

/-- Transcribes the retry loop of `socket_write` (protocol.c:35-48):
while the running total `sum` differs from the requested count
(`buf.length`), call write(2) on the remaining suffix; a -1 return
makes the function return -1 immediately, otherwise the returned count
is added to the total and the transferred bytes are appended to the
transport log `sent`.  `results` is the sequence of values the write(2)
calls will return (-1 or a non-negative byte count). -/
def socket_write_go (buf : List Nat) : List Int → Nat → List Nat →
    Outcome (Int × List Int × List Nat)
  | results, sum, sent =>
    if sum = buf.length then Outcome.ok (Int.ofNat sum, results, sent)
    else
      match results with
      | [] => Outcome.stuck
      | cur :: rest =>
        if cur = -1 then Outcome.ok (-1, rest, sent)
        else socket_write_go buf rest (sum + cur.toNat)
               (sent ++ (buf.drop sum).take cur.toNat)

/-- `socket_write(fd, buf, nbyte)` with `nbyte = buf.length`. -/
def socket_write (buf : List Nat) (results : List Int) (sent : List Nat) :
    Outcome (Int × List Int × List Nat) :=
  socket_write_go buf results 0 sent

/-- Transcribes `write_string` (protocol.c:55-63) at the transport
level: write the 8-byte length field, then — ignoring `socket_write`'s
return value, exactly as the C does — write the raw bytes when the
length is positive.  (`write_string` above is the same function's pure
wire image on an error-free transport.) -/
def write_string_tr (msg : List Nat) (results : List Int) (sent : List Nat) :
    Outcome (List Int × List Nat) :=
  match socket_write (natLE 8 msg.length) results sent with
  | Outcome.ok (_r, results1, sent1) =>
    if msg.length > 0 then
      match socket_write msg results1 sent1 with
      | Outcome.ok (_r2, results2, sent2) => Outcome.ok (results2, sent2)
      | Outcome.fatal => Outcome.fatal
      | Outcome.stuck => Outcome.stuck
    else Outcome.ok (results1, sent1)
  | Outcome.fatal => Outcome.fatal
  | Outcome.stuck => Outcome.stuck

/-! ### String array heap blocks (stringarray.c) -/

/-- The heap block backing an owned string array: a sequence of slots,
each holding a string or NULL; the terminating sentinel is a NULL
slot. -/
abbrev StrBlock := List (Option String)

/-- Transcribes `bear_strings_length` (stringarray.c:88-94): count the
leading non-NULL slots, stopping at the first NULL (a NULL array yields
0). -/
def bear_strings_length : StrBlock → Nat
  | [] => 0
  | none :: _ => 0
  | some _ :: rest => bear_strings_length rest + 1

/-- Transcribes `bear_strings_append` (stringarray.c:71-86): a NULL
element is returned unchanged (the guard at line 73); otherwise the
block is reallocated to keep its first `size` slots and hold the new
element followed by a fresh sentinel.  (The ear.c:638-649 variant lacks
the NULL-element guard; on actual strings the two agree.) -/
def bear_strings_append (blk : StrBlock) (e : Option String) : StrBlock :=
  match e with
  | none => blk
  | some s => blk.take (bear_strings_length blk) ++ [some s, none]

/-! ### Heap-level release of the environment state (ear.c:537-546) -/

/-- free(3) on a heap given as the list of live allocation addresses:
remove the address if live; freeing a non-live address is undefined
behaviour (`none`). -/
def freeAlloc (h : List Nat) (p : Nat) : Option (List Nat) :=
  if p ∈ h then some (h.erase p) else none

/-- The state's owned fields viewed as heap addresses (NULL or the
address of the owned string). -/
structure bear_env_ptrs where
  output : Option Nat
  preload : Option Nat
deriving DecidableEq, Repr

/-- Transcribes `bear_release_env_t` (ear.c:537-546) at the heap level:
free each non-null field in order.  The fields themselves are NOT
cleared, so after a release they still hold their (now dangling)
addresses. -/
def bear_release_env_t (h : List Nat) (env : bear_env_ptrs) :
    Option (List Nat) := do
  let h1 ← match env.output with
           | some a => freeAlloc h a
           | none => some h
  match env.preload with
  | some a => freeAlloc h1 a
  | none => some h1

/-! ### Lemmas about the environment vector update -/

theorem envKeyMatches_mk (key value : EnvStr) :
    envKeyMatches key (mkEnvEntry key value) = true := by
  unfold envKeyMatches mkEnvEntry
  simp only [Bool.and_eq_true, decide_eq_true_eq, beq_iff_eq]
  refine ⟨⟨?_, ?_⟩, ?_⟩
  · exact List.isPrefixOf_iff_prefix.mpr (List.prefix_append key ('=' :: value))
  · simp
  · rw [List.getElem?_append_right (Nat.le_refl key.length)]
    simp

theorem envKeyMatches_iff (key entry : EnvStr) :
    envKeyMatches key entry = true ↔ ∃ rest, entry = key ++ '=' :: rest := by
  constructor
  · intro h
    unfold envKeyMatches at h
    simp only [Bool.and_eq_true, decide_eq_true_eq, beq_iff_eq] at h
    obtain ⟨⟨hpre, hlen⟩, hget⟩ := h
    obtain ⟨t, rfl⟩ := List.isPrefixOf_iff_prefix.mp hpre
    match t with
    | [] => simp at hlen
    | c :: t' =>
      have hc : (key ++ c :: t')[key.length]? = some c := by
        rw [List.getElem?_append_right (Nat.le_refl key.length)]
        simp
      rw [hc] at hget
      obtain rfl : c = '=' := by simpa using hget
      exact ⟨t', rfl⟩
  · rintro ⟨rest, rfl⟩
    exact envKeyMatches_mk key rest

theorem mkEnvEntry_drop (key value : EnvStr) :
    (mkEnvEntry key value).drop (key.length + 1) = value := by
  have h1 : mkEnvEntry key value = (key ++ ['=']) ++ value := by
    simp [mkEnvEntry]
  have h2 : key.length + 1 = (key ++ ['=']).length := by simp
  rw [h1, h2, List.drop_left]

/-- Two distinct '='-free keys never match the same environment entry. -/
theorem envKeyMatches_inj (k1 k2 entry : EnvStr)
    (h1 : '=' ∉ k1) (h2 : '=' ∉ k2)
    (m1 : envKeyMatches k1 entry = true) (m2 : envKeyMatches k2 entry = true) :
    k1 = k2 := by
  obtain ⟨r1, e1⟩ := (envKeyMatches_iff k1 entry).mp m1
  obtain ⟨r2, e2⟩ := (envKeyMatches_iff k2 entry).mp m2
  have key_of : ∀ ka kb ra rb : EnvStr, '=' ∉ kb →
      ka.length ≤ kb.length → ka ++ '=' :: ra = kb ++ '=' :: rb → ka = kb := by
    intro ka kb ra rb hb hlen heq
    have htake := congrArg (List.take ka.length) heq
    rw [List.take_append_of_le_length (Nat.le_refl ka.length),
        List.take_append_of_le_length hlen, List.take_length] at htake
    rcases Nat.lt_or_ge ka.length kb.length with hlt | hge
    · exfalso
      have hidx : (kb ++ '=' :: rb)[ka.length]? = some '=' := by
        rw [← heq, List.getElem?_append_right (Nat.le_refl ka.length)]
        simp
      rw [List.getElem?_append_left hlt] at hidx
      exact hb (List.getElem?_mem hidx)
    · have hlen2 : kb.length = ka.length := Nat.le_antisymm hge hlen
      rw [htake, ← hlen2, List.take_length]
  rcases Nat.le_total k1.length k2.length with hle | hle
  · exact key_of k1 k2 r1 r2 h2 hle (e1 ▸ e2 ▸ rfl)
  · exact (key_of k2 k1 r2 r1 h1 hle (e2 ▸ e1 ▸ rfl)).symm

/-- Entries not matching the updated key pass through `bear_update_environ`
unchanged: any filter excluding every key-matching entry is preserved. -/
theorem bear_update_environ_filter_other (key value : EnvStr) (q : EnvStr → Bool)
    (hq : ∀ e, envKeyMatches key e = true → q e = false) :
    ∀ envs, (bear_update_environ envs key value).filter q = envs.filter q := by
  intro envs
  induction envs with
  | nil =>
    simp [bear_update_environ, List.filter_cons, hq _ (envKeyMatches_mk key value)]
  | cons e rest ih =>
    by_cases hm : envKeyMatches key e = true
    · by_cases hv : (e.drop (key.length + 1) == value) = true
      · simp [bear_update_environ, hm, hv]
      · simp [bear_update_environ, hm, hv, List.filter_cons, hq e hm,
          hq _ (envKeyMatches_mk key value)]
    · simp [bear_update_environ, hm, List.filter_cons, ih]

/-- A matching entry equal on the value side is literally `key=value`. -/
theorem eq_mkEnvEntry_of_matches (key value e : EnvStr)
    (hm : envKeyMatches key e = true)
    (hv : (e.drop (key.length + 1) == value) = true) :
    e = mkEnvEntry key value := by
  obtain ⟨r, rfl⟩ := (envKeyMatches_iff key e).mp hm
  have hr : (key ++ '=' :: r).drop (key.length + 1) = r := mkEnvEntry_drop key r
  rw [hr] at hv
  rw [beq_iff_eq] at hv
  rw [hv]
  rfl

/-- When at most one entry matches the key, the updated vector has exactly
one matching entry and it carries the required value. -/
theorem bear_update_environ_filter_key (key value : EnvStr) :
    ∀ envs, (envs.filter (envKeyMatches key)).length ≤ 1 →
      (bear_update_environ envs key value).filter (envKeyMatches key)
        = [mkEnvEntry key value] := by
  intro envs
  induction envs with
  | nil =>
    intro _
    simp [bear_update_environ, List.filter_cons, envKeyMatches_mk]
  | cons e rest ih =>
    intro hc
    by_cases hm : envKeyMatches key e = true
    · have hrest : rest.filter (envKeyMatches key) = [] := by
        rw [List.filter_cons_of_pos hm] at hc
        simp only [List.length_cons] at hc
        have h0 : (rest.filter (envKeyMatches key)).length = 0 := by omega
        exact List.eq_nil_of_length_eq_zero h0
      by_cases hv : (e.drop (key.length + 1) == value) = true
      · have he := eq_mkEnvEntry_of_matches key value e hm hv
        simp [bear_update_environ, hm, hv, List.filter_cons, hrest, he, envKeyMatches_mk]
      · simp [bear_update_environ, hm, hv, List.filter_cons, hrest, envKeyMatches_mk]
    · rw [List.filter_cons_of_neg (by simpa using hm)] at hc
      simp [bear_update_environ, hm, List.filter_cons, ih hc]

/-- With at most one matching entry, the update acts pointwise on positions:
a matching entry is overwritten in place with `key=value`, every other
entry keeps its position and content. -/
theorem bear_update_environ_get (key value : EnvStr) :
    ∀ envs, (envs.filter (envKeyMatches key)).length ≤ 1 →
      ∀ (i : Nat) (e : EnvStr), envs[i]? = some e →
        (bear_update_environ envs key value)[i]? =
          some (if envKeyMatches key e then mkEnvEntry key value else e) := by
  intro envs
  induction envs with
  | nil =>
    intro _ i e h
    simp at h
  | cons x rest ih =>
    intro hc i e hi
    by_cases hm : envKeyMatches key x = true
    · have hrest : rest.filter (envKeyMatches key) = [] := by
        rw [List.filter_cons_of_pos hm] at hc
        simp only [List.length_cons] at hc
        have h0 : (rest.filter (envKeyMatches key)).length = 0 := by omega
        exact List.eq_nil_of_length_eq_zero h0
      match i with
      | 0 =>
        obtain rfl : x = e := by simpa using hi
        by_cases hv : (x.drop (key.length + 1) == value) = true
        · have he := eq_mkEnvEntry_of_matches key value x hm hv
          simp [bear_update_environ, hm, hv, he, envKeyMatches_mk]
        · simp [bear_update_environ, hm, hv]
      | i + 1 =>
        have hi' : rest[i]? = some e := by simpa using hi
        have hmem : e ∈ rest := List.getElem?_mem hi'
        have hnm : ¬ envKeyMatches key e = true :=
          List.filter_eq_nil_iff.mp hrest e hmem
        by_cases hv : (x.drop (key.length + 1) == value) = true
        · simp [bear_update_environ, hm, hv, hi', hnm]
        · simp [bear_update_environ, hm, hv, hi', hnm]
    · match i with
      | 0 =>
        obtain rfl : x = e := by simpa using hi
        simp [bear_update_environ, hm]
      | i + 1 =>
        have hi' : rest[i]? = some e := by simpa using hi
        rw [List.filter_cons_of_neg (by simpa using hm)] at hc
        have := ih hc i e hi'
        simp [bear_update_environ, hm, this]

/-! ### Claims C10 and C1 -/

/-- Claim C10: the per-key environment update is idempotent — applying
`bear_update_environ` twice with the same key and value equals applying
it once; and when the vector already binds the key (its first matching
entry) to exactly the required value, the update returns the vector
unchanged. -/
theorem C10_update_idempotent (envs : List EnvStr) (key value : EnvStr) :
    bear_update_environ (bear_update_environ envs key value) key value
      = bear_update_environ envs key value
    ∧ (∀ pre post : List EnvStr,
        (∀ e ∈ pre, envKeyMatches key e = false) →
        envs = pre ++ mkEnvEntry key value :: post →
        bear_update_environ envs key value = envs) := by
  constructor
  · induction envs with
    | nil =>
      simp [bear_update_environ, envKeyMatches_mk, mkEnvEntry_drop]
    | cons e rest ih =>
      by_cases hm : envKeyMatches key e = true
      · by_cases hv : (e.drop (key.length + 1) == value) = true
        · simp [bear_update_environ, hm, hv]
        · simp [bear_update_environ, hm, hv, envKeyMatches_mk, mkEnvEntry_drop]
      · simp [bear_update_environ, hm, ih]
  · intro pre post hpre henvs
    subst henvs
    induction pre with
    | nil =>
      simp [bear_update_environ, envKeyMatches_mk, mkEnvEntry_drop]
    | cons p pre' ih =>
      have hp : envKeyMatches key p = false := hpre p (List.mem_cons_self p pre')
      have ih' := ih (fun e he => hpre e (List.mem_cons_of_mem p he))
      simp only [List.cons_append, bear_update_environ, hp, Bool.false_eq_true,
        if_false, List.cons.injEq, true_and]
      exact ih'

/-- Witness for C10 at a concrete input, discharging the hypotheses of
the second conjunct. -/
theorem C10_witness :
    bear_update_environ [mkEnvEntry ['K'] ['v']] ['K'] ['v']
      = [mkEnvEntry ['K'] ['v']] :=
  (C10_update_idempotent [mkEnvEntry ['K'] ['v']] ['K'] ['v']).2 [] []
    (by intro e he; cases he) rfl

/-- Claim C1 (amended): provided the two recognized key names are
distinct and free of the separator character, and each recognized key
matches at most one entry of the original vector, the vector produced by
`bear_update_environment` contains each recognized key exactly once with
the required value — an existing matching entry is overwritten in place
at its original position, the pair is appended at the end if absent —
and every entry matching neither recognized key is preserved unchanged
and in original relative order. -/
theorem C1_compute_updated (kOut kPre vOut vPre : EnvStr) (envp : List EnvStr)
    (hkO : '=' ∉ kOut) (hkP : '=' ∉ kPre) (hne : kOut ≠ kPre)
    (hdO : (envp.filter (envKeyMatches kOut)).length ≤ 1)
    (hdP : (envp.filter (envKeyMatches kPre)).length ≤ 1) :
    (bear_update_environment kOut kPre envp (some ⟨some vOut, some vPre⟩)).filter
        (envKeyMatches kOut) = [mkEnvEntry kOut vOut]
    ∧ (bear_update_environment kOut kPre envp (some ⟨some vOut, some vPre⟩)).filter
        (envKeyMatches kPre) = [mkEnvEntry kPre vPre]
    ∧ (bear_update_environment kOut kPre envp (some ⟨some vOut, some vPre⟩)).filter
        (fun e => !envKeyMatches kOut e && !envKeyMatches kPre e)
      = envp.filter (fun e => !envKeyMatches kOut e && !envKeyMatches kPre e)
    ∧ ∀ (i : Nat) (e : EnvStr), envp[i]? = some e →
        (bear_update_environment kOut kPre envp (some ⟨some vOut, some vPre⟩))[i]? =
          some (if envKeyMatches kOut e then mkEnvEntry kOut vOut
                else if envKeyMatches kPre e then mkEnvEntry kPre vPre else e) := by
  have hPO : ∀ e, envKeyMatches kPre e = true → envKeyMatches kOut e = false := by
    intro e h
    by_contra hc
    rw [Bool.not_eq_false] at hc
    exact hne (envKeyMatches_inj kOut kPre e hkO hkP hc h)
  have hOP : ∀ e, envKeyMatches kOut e = true → envKeyMatches kPre e = false := by
    intro e h
    by_contra hc
    rw [Bool.not_eq_false] at hc
    exact hne (envKeyMatches_inj kOut kPre e hkO hkP h hc)
  have hres : bear_update_environment kOut kPre envp (some ⟨some vOut, some vPre⟩)
      = bear_update_environ (bear_update_environ envp kPre vPre) kOut vOut := by
    simp [bear_update_environment, bear_strings_copy]
  have f2 : (bear_update_environ envp kPre vPre).filter (envKeyMatches kOut)
      = envp.filter (envKeyMatches kOut) :=
    bear_update_environ_filter_other kPre vPre (envKeyMatches kOut) hPO envp
  have cnt : ((bear_update_environ envp kPre vPre).filter (envKeyMatches kOut)).length ≤ 1 := by
    rw [f2]; exact hdO
  refine ⟨?_, ?_, ?_, ?_⟩
  · rw [hres]
    exact bear_update_environ_filter_key kOut vOut _ cnt
  · rw [hres]
    rw [bear_update_environ_filter_other kOut vOut (envKeyMatches kPre) hOP]
    exact bear_update_environ_filter_key kPre vPre envp hdP
  · rw [hres]
    have hq1 : ∀ e, envKeyMatches kOut e = true →
        (!envKeyMatches kOut e && !envKeyMatches kPre e) = false := by
      intro e h; simp [h]
    have hq2 : ∀ e, envKeyMatches kPre e = true →
        (!envKeyMatches kOut e && !envKeyMatches kPre e) = false := by
      intro e h; simp [h]
    rw [bear_update_environ_filter_other kOut vOut _ hq1,
        bear_update_environ_filter_other kPre vPre _ hq2]
  · intro i e hi
    rw [hres]
    have st1 := bear_update_environ_get kPre vPre envp hdP i e hi
    have st2 := bear_update_environ_get kOut vOut _ cnt i _ st1
    by_cases hPe : envKeyMatches kPre e = true
    · have hOe : envKeyMatches kOut e = false := hPO e hPe
      have hOmk : envKeyMatches kOut (mkEnvEntry kPre vPre) = false :=
        hPO _ (envKeyMatches_mk kPre vPre)
      rw [st2]
      simp [hPe, hOe, hOmk]
    · simp only [hPe, if_false] at st2
      rw [st2]
      by_cases hOe : envKeyMatches kOut e = true
      · simp [hPe, hOe]
      · simp [hPe, hOe]

/-- Witness for C1 at a concrete input: vector `[X=1, P=old]`, recognized
keys `O` (absent, appended) and `P` (present once, overwritten). -/
theorem C1_witness :
    (bear_update_environment ['O'] ['P'] [['X','=','1'], ['P','=','q']]
        (some ⟨some ['o'], some ['p']⟩)).filter
        (envKeyMatches ['O']) = [mkEnvEntry ['O'] ['o']]
    ∧ (bear_update_environment ['O'] ['P'] [['X','=','1'], ['P','=','q']]
        (some ⟨some ['o'], some ['p']⟩)).filter
        (envKeyMatches ['P']) = [mkEnvEntry ['P'] ['p']] := by
  have h := C1_compute_updated ['O'] ['P'] ['o'] ['p'] [['X','=','1'], ['P','=','q']]
    (by decide) (by decide) (by decide) (by decide) (by decide)
  exact ⟨h.1, h.2.1⟩

/-- Counterexample to C1 as stated: if the original vector contains a
recognized key twice, only the first occurrence is overwritten and the
second survives, so the updated vector does not contain the key exactly
once.  Concretely `[O=a, O=b]` updated with `O=o` (and `P=p`) yields
`[O=o, O=b, P=p]`, in which the key `O` appears twice. -/
theorem C1_counterexample :
    bear_update_environment ['O'] ['P'] [['O','=','a'], ['O','=','b']]
        (some ⟨some ['o'], some ['p']⟩)
      = [['O','=','o'], ['O','=','b'], ['P','=','p']]
    ∧ ((bear_update_environment ['O'] ['P'] [['O','=','a'], ['O','=','b']]
        (some ⟨some ['o'], some ['p']⟩)).filter
        (envKeyMatches ['O'])).length = 2 := by
  constructor
  · rfl
  · decide

/-! ### Claim C2 -/

mutual
/-- Inside an already-reporting outer call the flag is set, so a nested
hook invocation reports nothing and leaves the flag set. -/
theorem runCall_true : ∀ t : CallTree, runCall true t = (true, [])
  | CallTree.node l ts => by
    rw [runCall, runList_true ts]
    simp

theorem runList_true : ∀ ts : List CallTree, runList true ts = (true, [])
  | [] => by rw [runList]
  | t :: ts => by
    rw [runList, runCall_true t, runList_true ts]
    rfl
end

/-- Claim C2: an outer hooked call whose forwarded real call re-enters
arbitrarily many further hooked calls before completing produces exactly
one report, attributed to the outer call and none to the nested ones;
and a subsequent independent top-level hooked call after the outer call
completes (returns failure) produces exactly one further report. -/
theorem C2_reentrancy_guard (l1 l2 : Nat) (ts1 ts2 : List CallTree) :
    runList false [CallTree.node l1 ts1, CallTree.node l2 ts2]
      = (false, [l1, l2]) := by
  rw [runList, runList, runList, runCall, runCall, runList_true ts1, runList_true ts2]
  simp

/-! ### Claims C5, C4 and C7 -/

/-- The state produced by the valid/malloc branches of on_load is
complete whenever it is non-null. -/
theorem on_load_branch_valid (current : bear_env_t) (mallocOk : Bool)
    (s : bear_env_t)
    (h : (if bear_is_valid_env_t current ≠ 0 then
            if mallocOk then some current else none
          else none) = some s) :
    bear_is_valid_env_t s = -1 := by
  by_cases hv : bear_is_valid_env_t current ≠ 0
  · rw [if_pos hv] at h
    by_cases hm : mallocOk = true
    · rw [if_pos hm] at h
      obtain rfl : current = s := by simpa using h
      unfold bear_is_valid_env_t at hv ⊢
      by_cases hb : (current.preload.isSome && current.output.isSome) = true
      · rw [if_pos hb]
      · rw [if_neg hb] at hv
        exact absurd rfl hv
    · rw [if_neg hm] at h
      simp at h
  · rw [if_neg hv] at h
    simp at h

/-- Claim C5: after load the process-wide state is either complete
(`bear_is_valid_env_t` returns -1, interception active) or null
(interception disabled); no partially populated state is ever active,
and unload always leaves the state null.  This covers every reachable
state: no other operation assigns to the state. -/
theorem C5_state_invariant (getv : EnvStr → Option EnvStr) (kOut kPre : EnvStr)
    (okOut okPre mallocOk : Bool) :
    (∀ s : bear_env_t,
        on_load getv kOut kPre okOut okPre mallocOk = Except.ok (some s) →
        bear_is_valid_env_t s = -1)
    ∧ (∀ st : Option bear_env_t, on_unload st = none) := by
  refine ⟨?_, fun st => rfl⟩
  intro s hs
  unfold on_load bear_capture_env_t at hs
  simp only [Except.map] at hs
  refine on_load_branch_valid
    ⟨(getv kOut).bind (strdupOpt okOut), (getv kPre).bind (strdupOpt okPre)⟩
    mallocOk s ?_
  exact Except.ok.inj hs

/-- Witness for C5: with both variables present and all allocations
succeeding, load yields an active state, and it is complete. -/
theorem C5_witness :
    bear_is_valid_env_t ⟨some ['x'], some ['x']⟩ = -1 :=
  (C5_state_invariant (fun _ => some ['x']) ['O'] ['P'] true true true).1
    ⟨some ['x'], some ['x']⟩ rfl

/-- Claim C4 (code bug witnessed at a concrete input): with the required
variables absent at load time the state is null and hooks report
nothing — `bear_report_call` yields zero reports and the `execve` path
forwards the original environment unchanged — but the `execvp` hook does
not degrade to a passthrough: `call_execvp` hands the null state pointer
to `bear_restore_env_t`, which dereferences it, so the hook crashes
instead of forwarding with the original arguments. -/
theorem C4_inactive_execvp_crash :
    on_load (fun _ => none) ['O'] ['P'] true true true = Except.ok none
    ∧ bear_report_call none ['e','x','e','c','v','p'] [['m','a','k','e']] = []
    ∧ execve_hook ['O'] ['P'] none ['m','a','k','e'] [['m','a','k','e']]
        [['X','=','1']] (-1)
      = ([], -1, [['X','=','1']])
    ∧ execvp_hook ['O'] ['P'] none (fun _ => none) ['m','a','k','e']
        [['m','a','k','e']] (-1)
      = Except.error Abort.nullDeref := by
  refine ⟨rfl, rfl, rfl, rfl⟩

/-- Claim C7 (amended): every allocation failure inside
`bear_strings_build` is fatal — the function returns normally only when
all the allocations it consulted succeeded (and then it produced a
content-equal copy); but allocation failures during load-time state
capture are not fatal: a failed `strdup` in `bear_capture_env_t`
silently leaves the field null so the shim degrades to the inactive
state, and a failed `malloc` of the state struct in `on_load` emits a
diagnostic and degrades to the inactive state, without terminating. -/
theorem C7_allocation_failures (σ : Nat → Bool) (args : List EnvStr) (k : Nat)
    (out : List EnvStr) (getv : EnvStr → Option EnvStr) (kOut kPre : EnvStr)
    (o p : EnvStr) (okPre : Bool)
    (hbuild : bear_strings_build σ args k = Except.ok out)
    (hO : getv kOut = some o) (hP : getv kPre = some p) :
    (out = args ∧ ∀ j, j < 2 * args.length + 1 → σ (k + j) = true)
    ∧ on_load getv kOut kPre false okPre true = Except.ok none
    ∧ on_load getv kOut kPre true true false = Except.ok none := by
  refine ⟨?_, ?_, ?_⟩
  · induction args generalizing k out with
    | nil =>
      unfold bear_strings_build at hbuild
      by_cases hk : σ k = true
      · rw [if_pos hk] at hbuild
        obtain rfl : out = [] := by simpa using hbuild.symm
        refine ⟨rfl, ?_⟩
        intro j hj
        simp only [List.length_nil] at hj
        obtain rfl : j = 0 := by omega
        simpa using hk
      · rw [if_neg hk] at hbuild
        simp at hbuild
    | cons hd rest ih =>
      unfold bear_strings_build at hbuild
      by_cases hk : σ k = true
      · rw [if_pos hk] at hbuild
        by_cases hk1 : σ (k + 1) = true
        · rw [if_pos hk1] at hbuild
          match htail : bear_strings_build σ rest (k + 2) with
          | Except.error e =>
            rw [htail] at hbuild
            simp [Except.map] at hbuild
          | Except.ok tail =>
            rw [htail] at hbuild
            simp only [Except.map] at hbuild
            obtain rfl : out = hd :: tail := by simpa using hbuild.symm
            obtain ⟨hteq, hall⟩ := ih (k + 2) tail htail
            subst hteq
            refine ⟨rfl, ?_⟩
            intro j hj
            match j with
            | 0 => simpa using hk
            | 1 => simpa using hk1
            | j + 2 =>
              simp only [List.length_cons] at hj
              have hjlt : j < 2 * List.length tail + 1 := by omega
              have := hall j hjlt
              have harith : k + 2 + j = k + (j + 2) := by omega
              rwa [harith] at this
        · rw [if_neg hk1] at hbuild
          simp at hbuild
      · rw [if_neg hk] at hbuild
        simp at hbuild
  · unfold on_load bear_capture_env_t
    rw [hO]
    simp [strdupOpt, bear_is_valid_env_t, Except.map]
  · unfold on_load bear_capture_env_t
    rw [hO, hP]
    simp [strdupOpt, bear_is_valid_env_t, Except.map]

/-- Witness for C7 at concrete inputs: a two-element build with every
allocation succeeding, and an ambient environment carrying both
variables. -/
theorem C7_witness :
    (([['c','c'], ['-','c']] : List EnvStr) = [['c','c'], ['-','c']]
      ∧ ∀ j, j < 2 * ([['c','c'], ['-','c']] : List EnvStr).length + 1 →
          (fun _ => true : Nat → Bool) (0 + j) = true)
    ∧ on_load (fun _ => some ['x']) ['O'] ['P'] false true true = Except.ok none
    ∧ on_load (fun _ => some ['x']) ['O'] ['P'] true true false = Except.ok none :=
  C7_allocation_failures (fun _ => true) [['c','c'], ['-','c']] 0
    [['c','c'], ['-','c']] (fun _ => some ['x']) ['O'] ['P'] ['x'] ['x'] true
    rfl rfl rfl

/-- Counterexample to C7 as stated: in `bear_capture_env_t` the `strdup`
of the output variable's value fails (an allocation failure while
building an owned string), yet the function neither prints a diagnostic
nor terminates — it returns normally with the field silently null, and
the subsequent load completes, leaving the shim inactive. -/
theorem C7_counterexample :
    bear_capture_env_t (fun _ => some ['x']) ['O'] ['P'] false true
      = Except.ok ⟨none, some ['x']⟩
    ∧ on_load (fun _ => some ['x']) ['O'] ['P'] false true true
      = Except.ok none :=
  ⟨rfl, rfl⟩

/-! ### Claims C8 and C9 -/

theorem bear_strings_length_le (blk : StrBlock) :
    bear_strings_length blk ≤ blk.length := by
  induction blk with
  | nil => exact Nat.le_refl 0
  | cons slot rest ih =>
    match slot with
    | none => simp [bear_strings_length]
    | some s =>
      rw [bear_strings_length]
      simpa using ih

theorem bear_strings_length_append_aux (s : String) (blk : StrBlock) :
    bear_strings_length (blk.take (bear_strings_length blk) ++ [some s, none])
      = bear_strings_length blk + 1 := by
  induction blk with
  | nil => rfl
  | cons slot rest ih =>
    match slot with
    | none => rfl
    | some x =>
      rw [bear_strings_length, List.take_succ_cons, List.cons_append,
        bear_strings_length, ih]

/-- Claim C8: appending a string element to a sentinel-terminated owned
string array increases the measured length by exactly one, and the
resulting array is still terminated by the sentinel (the slot right
after the last element is NULL). -/
theorem C8_append_length (blk : StrBlock) (e : String) (hterm : none ∈ blk) :
    bear_strings_length (bear_strings_append blk (some e))
      = bear_strings_length blk + 1
    ∧ (bear_strings_append blk (some e))[bear_strings_length blk + 1]?
      = some none := by
  constructor
  · exact bear_strings_length_append_aux e blk
  · unfold bear_strings_append
    have hlen : (blk.take (bear_strings_length blk)).length
        = bear_strings_length blk := by
      rw [List.length_take]
      exact Nat.min_eq_left (bear_strings_length_le blk)
    rw [List.getElem?_append_right (by rw [hlen]; omega)]
    rw [hlen]
    simp

/-- Witness for C8: appending to the one-element array `[cc, NULL]`. -/
theorem C8_witness :
    bear_strings_length (bear_strings_append [some "cc", none] (some "-c"))
      = bear_strings_length [some "cc", none] + 1
    ∧ (bear_strings_append [some "cc", none] (some "-c"))[bear_strings_length
        [some "cc", none] + 1]? = some none :=
  C8_append_length [some "cc", none] "-c" (by simp)

/-- Claim C9 (amended): a single release frees all owned fields; but the
fields are not cleared, so release is NOT idempotent — applying it a
second time to a state with an owned field frees the same address again
(undefined behaviour), not a well-defined no-op. -/
theorem C9_release_not_idempotent (h : List Nat) (a b : Nat)
    (hnd : h.Nodup) (ha : a ∈ h) (hb : b ∈ h.erase a) :
    bear_release_env_t h ⟨some a, some b⟩ = some ((h.erase a).erase b)
    ∧ (bear_release_env_t h ⟨some a, some b⟩).bind
        (fun h2 => bear_release_env_t h2 ⟨some a, some b⟩) = none := by
  have h1 : bear_release_env_t h ⟨some a, some b⟩
      = some ((h.erase a).erase b) := by
    simp [bear_release_env_t, freeAlloc, ha, hb]
  refine ⟨h1, ?_⟩
  rw [h1]
  have hnot : a ∉ (h.erase a).erase b := by
    intro hmem
    exact (hnd.not_mem_erase) (List.mem_of_mem_erase hmem)
  simp [bear_release_env_t, freeAlloc, hnot]

/-- Witness for C9 at the concrete heap [0, 1] owned by the state. -/
theorem C9_witness :
    bear_release_env_t [0, 1] ⟨some 0, some 1⟩ = some []
    ∧ (bear_release_env_t [0, 1] ⟨some 0, some 1⟩).bind
        (fun h2 => bear_release_env_t h2 ⟨some 0, some 1⟩) = none := by
  have h := C9_release_not_idempotent [0, 1] 0 1 (by decide) (by decide) (by decide)
  exact ⟨h.1, h.2⟩

/-- Counterexample to C9 as stated: on the concrete heap [0, 1] with
both fields owned, one release succeeds (freeing both fields), but
applying release a second time to the same state is a double free
(undefined behaviour), not a no-op leaving the state identical to a
single release. -/
theorem C9_counterexample :
    bear_release_env_t [0, 1] ⟨some 0, some 1⟩ = some []
    ∧ ¬ ((bear_release_env_t [0, 1] ⟨some 0, some 1⟩).bind
          (fun h2 => bear_release_env_t h2 ⟨some 0, some 1⟩)
        = bear_release_env_t [0, 1] ⟨some 0, some 1⟩) := by
  decide

/-! ### Claim C3 -/

/-- The write helpers have no diagnostic-and-exit path: the retry loop
only ever returns a count, -1, or runs out of modelled outcomes. -/
theorem socket_write_go_not_fatal (buf : List Nat) :
    ∀ (results : List Int) (sum : Nat) (sent : List Nat),
      socket_write_go buf results sum sent ≠ Outcome.fatal := by
  intro results
  induction results with
  | nil =>
    intro sum sent
    rw [socket_write_go]
    by_cases hs : sum = buf.length
    · simp [hs]
    · simp [hs]
  | cons cur rest ih =>
    intro sum sent
    rw [socket_write_go]
    by_cases hs : sum = buf.length
    · simp [hs]
    · rw [if_neg hs]
      by_cases hc : cur = -1
      · simp [hc]
      · simpa [hc] using ih (sum + cur.toNat) (sent ++ (buf.drop sum).take cur.toNat)

/-- Once the running total has overshot the requested count the loop can
no longer exit normally: the only `ok` result left is the error -1. -/
theorem socket_write_go_overshoot (buf : List Nat) :
    ∀ (results : List Int) (sum : Nat) (sent : List Nat)
      (r : Int) (res2 : List Int) (sent2 : List Nat),
      buf.length < sum →
      socket_write_go buf results sum sent = Outcome.ok (r, res2, sent2) →
      r = -1 := by
  intro results
  induction results with
  | nil =>
    intro sum sent r res2 sent2 hlt h
    rw [socket_write_go, if_neg (by omega : ¬ sum = buf.length)] at h
    cases h
  | cons cur rest ih =>
    intro sum sent r res2 sent2 hlt h
    rw [socket_write_go, if_neg (by omega : ¬ sum = buf.length)] at h
    by_cases hc : cur = -1
    · rw [if_pos hc] at h
      cases h
      rfl
    · rw [if_neg hc] at h
      exact ih (sum + cur.toNat) (sent ++ (buf.drop sum).take cur.toNat)
        r res2 sent2 (by omega) h

/-- If the loop returns without error, the full requested payload was
transferred: the return value is the requested count and the transport
log was extended by exactly the remaining buffer suffix. -/
theorem socket_write_go_complete (buf : List Nat) :
    ∀ (results : List Int) (sum : Nat) (sent : List Nat)
      (r : Int) (res2 : List Int) (sent2 : List Nat),
      (∀ c ∈ results, c = -1 ∨ 0 ≤ c) →
      sum ≤ buf.length →
      socket_write_go buf results sum sent = Outcome.ok (r, res2, sent2) →
      r ≠ -1 →
      r = Int.ofNat buf.length ∧ sent2 = sent ++ buf.drop sum := by
  intro results
  induction results with
  | nil =>
    intro sum sent r res2 sent2 hv hle h hr
    rw [socket_write_go] at h
    by_cases hs : sum = buf.length
    · rw [if_pos hs] at h
      cases h
      subst hs
      simp
    · rw [if_neg hs] at h
      cases h
  | cons cur rest ih =>
    intro sum sent r res2 sent2 hv hle h hr
    rw [socket_write_go] at h
    by_cases hs : sum = buf.length
    · rw [if_pos hs] at h
      cases h
      subst hs
      simp
    · rw [if_neg hs] at h
      by_cases hc : cur = -1
      · rw [if_pos hc] at h
        cases h
        exact absurd rfl hr
      · rw [if_neg hc] at h
        have hcur : 0 ≤ cur := (hv cur (List.mem_cons_self cur rest)).resolve_left hc
        rcases Nat.lt_or_ge buf.length (sum + cur.toNat) with hgt | hle2
        · exact absurd (socket_write_go_overshoot buf rest (sum + cur.toNat)
            (sent ++ (buf.drop sum).take cur.toNat) r res2 sent2 hgt h) hr
        · obtain ⟨h1, h2⟩ := ih (sum + cur.toNat)
            (sent ++ (buf.drop sum).take cur.toNat) r res2 sent2
            (fun c hcm => hv c (List.mem_cons_of_mem cur hcm)) hle2 h hr
          refine ⟨h1, ?_⟩
          rw [h2, List.append_assoc]
          congr 1
          have hdd : buf.drop (sum + cur.toNat) = (buf.drop sum).drop cur.toNat := by
            rw [List.drop_drop, Nat.add_comm]
          rw [hdd]
          exact List.take_append_drop cur.toNat (buf.drop sum)

/-- Claim C3 (amended): a short write on the underlying transport is
retried until the full payload has been written — a non-error return
from `socket_write` is always the full requested count, with exactly
the whole buffer appended to the transport log; but a transport error
is NOT fatal: `socket_write` returns -1, and its callers (here
`write_string` at the transport level) ignore that result and continue
writing the rest of the record — no path of the write helpers
terminates the process. -/
theorem C3_short_write_retry (buf : List Nat) (results : List Int)
    (sent : List Nat) (r : Int) (results2 : List Int) (sent2 : List Nat)
    (hv : ∀ c ∈ results, c = -1 ∨ 0 ≤ c)
    (hok : socket_write buf results sent = Outcome.ok (r, results2, sent2)) :
    (r ≠ -1 → r = Int.ofNat buf.length ∧ sent2 = sent ++ buf)
    ∧ ∀ (msg : List Nat) (res : List Int) (snt : List Nat),
        write_string_tr msg res snt ≠ Outcome.fatal := by
  constructor
  · intro hr
    have h := socket_write_go_complete buf results 0 sent r results2 sent2 hv
      (Nat.zero_le buf.length) hok hr
    simpa using h
  · intro msg res snt
    unfold write_string_tr
    cases hsw : socket_write (natLE 8 msg.length) res snt with
    | ok p =>
      obtain ⟨r1, res1, snt1⟩ := p
      dsimp only
      by_cases hl : msg.length > 0
      · rw [if_pos hl]
        cases hsw2 : socket_write msg res1 snt1 with
        | ok q =>
          obtain ⟨r2, res2b, snt2b⟩ := q
          simp
        | fatal => exact absurd hsw2 (socket_write_go_not_fatal msg res1 0 snt1)
        | stuck => simp
      · rw [if_neg hl]
        simp
    | fatal => exact absurd hsw (socket_write_go_not_fatal (natLE 8 msg.length) res 0 snt)
    | stuck => simp

/-- Witness for C3: one write(2) returning 1 transfers the whole
one-byte payload. -/
theorem C3_witness :
    (((1 : Int) ≠ -1 → (1 : Int) = Int.ofNat ([5] : List Nat).length
        ∧ ([5] : List Nat) = [] ++ [5])
      ∧ ∀ (msg : List Nat) (res : List Int) (snt : List Nat),
          write_string_tr msg res snt ≠ Outcome.fatal) :=
  C3_short_write_retry [5] [1] [] 1 [] [5] (by decide) rfl

/-- Counterexample to C3 as stated: the kernel rejects the 8-byte
length-field write with an error (-1); the process is NOT terminated —
`write_string` ignores the failure, continues, and successfully writes
the 3 content bytes, leaving a partial record (content without its
length field) on the transport. -/
theorem C3_counterexample :
    write_string_tr [7, 7, 7] [-1, 3] [] = Outcome.ok ([], [7, 7, 7]) := by
  rfl

/-! ### Claim C6 -/

theorem natLE_length (w : Nat) : ∀ n : Nat, (natLE w n).length = w := by
  induction w with
  | zero => intro n; rfl
  | succ w ih =>
    intro n
    rw [natLE]
    simp [ih]

theorem fromLE_natLE (w : Nat) : ∀ n : Nat, n < 256 ^ w →
    fromLE (natLE w n) = n := by
  induction w with
  | zero =>
    intro n h
    simp only [pow_zero, Nat.lt_one_iff] at h
    subst h
    rfl
  | succ w ih =>
    intro n h
    rw [natLE, fromLE]
    have hdiv : n / 256 < 256 ^ w := by
      rw [Nat.div_lt_iff_lt_mul (by norm_num : 0 < 256)]
      calc n < 256 ^ (w + 1) := h
        _ = 256 ^ w * 256 := by rw [pow_succ]
    rw [ih (n / 256) hdiv]
    exact Nat.mod_add_div n 256

theorem readNatLE_roundtrip (w n : Nat) (rest : List Nat) (h : n < 256 ^ w) :
    readNatLE w (natLE w n ++ rest) = some (n, rest) := by
  have hl : (natLE w n).length = w := natLE_length w n
  have htake : (natLE w n ++ rest).take w = natLE w n := by
    have h0 := List.take_left (natLE w n) rest
    rwa [hl] at h0
  have hdrop : (natLE w n ++ rest).drop w = rest := by
    have h0 := List.drop_left (natLE w n) rest
    rwa [hl] at h0
  unfold readNatLE
  rw [if_pos (by rw [List.length_append, hl]; omega)]
  rw [htake, hdrop, fromLE_natLE w n h]

theorem readString_roundtrip (s : List Nat) (rest : List Nat)
    (h : s.length < 256 ^ 8) :
    readString (write_string s ++ rest) = some (s, rest) := by
  unfold readString write_string
  rw [List.append_assoc, readNatLE_roundtrip 8 s.length _ h]
  dsimp only
  by_cases hl : s.length > 0
  · rw [if_pos hl]
    rw [if_pos (by rw [List.length_append]; omega)]
    rw [List.take_left s rest, List.drop_left s rest]
  · have hs : s = [] := List.eq_nil_of_length_eq_zero (by omega)
    subst hs
    simp

theorem readStrings_roundtrip (l : List (List Nat)) :
    ∀ rest : List Nat, (∀ s ∈ l, List.length s < 256 ^ 8) →
      readStrings l.length ((l.map write_string).flatten ++ rest)
        = some (l, rest) := by
  induction l with
  | nil => intro rest _; rfl
  | cons s t ih =>
    intro rest h
    rw [List.length_cons, readStrings]
    have hb : ((s :: t).map write_string).flatten ++ rest
        = write_string s ++ ((t.map write_string).flatten ++ rest) := by
      simp
    rw [hb, readString_roundtrip s _ (h s (List.mem_cons_self s t))]
    dsimp only
    rw [ih _ (fun x hx => h x (List.mem_cons_of_mem s hx))]

/-- Claim C6: encoding a call record over the socket wire format and
decoding it back yields identical field values, consuming the whole
stream; in particular an argument vector of length 0 round-trips to the
empty sequence (see the witness), not a null.  The widths bound the
fields exactly as the fixed-width binary fields do (pid_t is 4 bytes,
size_t is 8). -/
theorem C6_socket_roundtrip (m : bear_message_t)
    (hpid : m.pid < 256 ^ 4) (hppid : m.ppid < 256 ^ 4)
    (hfn : m.fn.length < 256 ^ 8) (hcwd : m.cwd.length < 256 ^ 8)
    (hcnt : m.cmd.length < 256 ^ 8)
    (hargs : ∀ s ∈ m.cmd, List.length s < 256 ^ 8) :
    readMessage (bear_write_message m) = some (m, []) := by
  obtain ⟨pid, ppid, fn, cwd, cmd⟩ := m
  unfold bear_write_message readMessage write_pid write_string_array
  simp only [List.append_assoc]
  rw [readNatLE_roundtrip 4 pid _ hpid]
  dsimp only
  rw [readNatLE_roundtrip 4 ppid _ hppid]
  dsimp only
  rw [readString_roundtrip fn _ hfn]
  dsimp only
  rw [readString_roundtrip cwd _ hcwd]
  dsimp only
  rw [readNatLE_roundtrip 8 cmd.length _ hcnt]
  dsimp only
  rw [← List.append_nil ((cmd.map write_string).flatten)]
  rw [readStrings_roundtrip cmd [] hargs]

/-- Witness for C6 at the record of spec section 8 with an empty
argument vector: `pid=100, ppid=1, fn="execve", cwd="/tmp", argv=[]`
(strings as their ASCII bytes) decodes to exactly the same record, the
empty vector round-tripping to an empty sequence. -/
theorem C6_witness :
    readMessage (bear_write_message
        ⟨100, 1, [101, 120, 101, 99, 118, 101], [47, 116, 109, 112], []⟩)
      = some (⟨100, 1, [101, 120, 101, 99, 118, 101], [47, 116, 109, 112], []⟩, []) :=
  C6_socket_roundtrip
    ⟨100, 1, [101, 120, 101, 99, 118, 101], [47, 116, 109, 112], []⟩
    (by norm_num) (by norm_num) (by norm_num) (by norm_num) (by norm_num)
    (by intro s hs; cases hs)
